import Mathlib

/-!
Verification development for the dxtb repository (GFN-xTB tight-binding
pipeline).  The numeric code operates on floating-point tensors; the
embedding replaces floats by exact rationals and passes the machine
square-root routine (used by `torch.cdist` and `torch.sqrt`) explicitly
as a function parameter `sqrtQ : ℚ → ℚ`, so every statement holds for an
arbitrary square-root implementation.  Tensors indexed by atoms, shells
and orbitals become functions on `Fin`-types; elementwise `torch.where`
masks become `if` expressions.
-/

/-! ## Coordination-number engine (src/dxtb/ncoord/ncoord.py) -/

/-- Squared Euclidean distance between atoms `i` and `j`, written the way
`torch.cdist` computes it with `compute_mode="use_mm_for_euclid_dist"`,
namely `x·x + y·y - 2·x·y`. -/
def d2Q {n : ℕ} (positions : Fin n → Fin 3 → ℚ) (i j : Fin n) : ℚ :=
  (∑ k, positions i k * positions i k) + (∑ k, positions j k * positions j k)
    - 2 * ∑ k, positions i k * positions j k

/-- The pairwise distance matrix `torch.cdist(positions, positions, p=2)`:
the machine square root `sqrtQ` applied to the exact squared distance. -/
def cdistQ {n : ℕ} (sqrtQ : ℚ → ℚ) (positions : Fin n → Fin 3 → ℚ)
    (i j : Fin n) : ℚ :=
  sqrtQ (d2Q positions i j)

/-- The pair mask of `get_coordination_number`:
`real.unsqueeze(-2) * real.unsqueeze(-1) * ~diag` — both atoms real
(atomic number nonzero) and off the diagonal. -/
def cnMask {n : ℕ} (numbers : Fin n → ℕ) (i j : Fin n) : Prop :=
  numbers i ≠ 0 ∧ numbers j ≠ 0 ∧ i ≠ j

instance cnMaskDec {n : ℕ} (numbers : Fin n → ℕ) (i j : Fin n) :
    Decidable (cnMask numbers i j) :=
  decidable_of_iff (numbers i ≠ 0 ∧ numbers j ≠ 0 ∧ i ≠ j) Iff.rfl

/-- The `distances` local of `get_coordination_number`:
`torch.where(mask, torch.cdist(...), eps)` with `eps` the machine epsilon
of the floating dtype. -/
def cnDistances {n : ℕ} (sqrtQ : ℚ → ℚ) (eps : ℚ) (numbers : Fin n → ℕ)
    (positions : Fin n → Fin 3 → ℚ) (i j : Fin n) : ℚ :=
  if cnMask numbers i j then cdistQ sqrtQ positions i j else eps

/-- Embedding of `dxtb.ncoord.ncoord.get_coordination_number`: the
counting-function values are kept on in-cutoff masked pairs
(`mask * (distances <= cutoff)`), zeroed elsewhere, and summed over the
last dimension.  The `counting_function` argument is the same
pass-through parameter as in the source, applied elementwise to the
masked distance matrix and to the covalent-radii sums
`rc = rcov.unsqueeze(-2) + rcov.unsqueeze(-1)`.  The shape-validation
branches of the source cannot fire here because the index types enforce
consistent shapes. -/
def get_coordination_number {n : ℕ} (sqrtQ : ℚ → ℚ) (eps : ℚ)
    (numbers : Fin n → ℕ) (positions : Fin n → Fin 3 → ℚ)
    (counting_function : ℚ → ℚ → ℚ) (rcov : Fin n → ℚ) (cutoff : ℚ) :
    Fin n → ℚ :=
  fun i => ∑ j,
    if cnMask numbers i j ∧ cnDistances sqrtQ eps numbers positions i j ≤ cutoff
    then counting_function (cnDistances sqrtQ eps numbers positions i j)
      (rcov i + rcov j)
    else 0

/-- Orthogonality of a 3x3 matrix of rationals, stated entrywise:
the columns are orthonormal. -/
def orthoQ (R : Fin 3 → Fin 3 → ℚ) : Prop :=
  ∀ k l, (∑ m, R m k * R m l) = if k = l then 1 else 0

instance orthoQDec (R : Fin 3 → Fin 3 → ℚ) : Decidable (orthoQ R) :=
  decidable_of_iff
    (∀ k l, (∑ m, R m k * R m l) = if k = l then 1 else 0) Iff.rfl

/-- A rigid motion applied to all positions: rotate by `R` and then
translate by `t`. -/
def applyRigid (R : Fin 3 → Fin 3 → ℚ) (t : Fin 3 → ℚ) {n : ℕ}
    (positions : Fin n → Fin 3 → ℚ) : Fin n → Fin 3 → ℚ :=
  fun i k => (∑ l, R k l * positions i l) + t k

theorem d2Q_eq_sum_sq {n : ℕ} (p : Fin n → Fin 3 → ℚ) (i j : Fin n) :
    d2Q p i j = ∑ k, (p i k - p j k) ^ 2 := by
  unfold d2Q
  rw [show (∑ k, (p i k - p j k) ^ 2) =
      ∑ k, (p i k * p i k + p j k * p j k - 2 * (p i k * p j k)) from
    Finset.sum_congr rfl fun k _ => by ring]
  rw [Finset.sum_sub_distrib, Finset.sum_add_distrib, Finset.mul_sum]

theorem d2Q_applyRigid {n : ℕ} {R : Fin 3 → Fin 3 → ℚ} (hR : orthoQ R)
    (t : Fin 3 → ℚ) (p : Fin n → Fin 3 → ℚ) (i j : Fin n) :
    d2Q (applyRigid R t p) i j = d2Q p i j := by
  rw [d2Q_eq_sum_sq, d2Q_eq_sum_sq]
  have hdiff : ∀ k, applyRigid R t p i k - applyRigid R t p j k =
      ∑ l, R k l * (p i l - p j l) := by
    intro k
    unfold applyRigid
    have h1 : (∑ l, R k l * (p i l - p j l)) =
        (∑ l, R k l * p i l) - ∑ l, R k l * p j l := by
      rw [← Finset.sum_sub_distrib]
      exact Finset.sum_congr rfl fun l _ => by ring
    rw [h1]
    ring
  calc
    ∑ k, (applyRigid R t p i k - applyRigid R t p j k) ^ 2
        = ∑ k, (∑ l, R k l * (p i l - p j l)) ^ 2 :=
          Finset.sum_congr rfl fun k _ => by rw [hdiff]
    _ = ∑ k, ∑ l, ∑ m, (p i l - p j l) * (p i m - p j m) * (R k l * R k m) := by
          refine Finset.sum_congr rfl fun k _ => ?_
          rw [sq, Finset.sum_mul_sum]
          exact Finset.sum_congr rfl fun l _ =>
            Finset.sum_congr rfl fun m _ => by ring
    _ = ∑ l, ∑ m, (p i l - p j l) * (p i m - p j m) * ∑ k, R k l * R k m := by
          rw [Finset.sum_comm]
          refine Finset.sum_congr rfl fun l _ => ?_
          rw [Finset.sum_comm]
          refine Finset.sum_congr rfl fun m _ => ?_
          rw [Finset.mul_sum]
    _ = ∑ l, ∑ m, (p i l - p j l) * (p i m - p j m) * if l = m then 1 else 0 := by
          refine Finset.sum_congr rfl fun l _ => ?_
          refine Finset.sum_congr rfl fun m _ => ?_
          rw [hR l m]
    _ = ∑ l, (p i l - p j l) ^ 2 := by
          refine Finset.sum_congr rfl fun l _ => ?_
          rw [Finset.sum_eq_single l]
          · simp [sq]
          · intro m _ hm
            simp [Ne.symm hm]
          · intro h
            exact absurd (Finset.mem_univ l) h

/-- C8: the coordination-number vector is invariant under every rigid
motion of the positions (any global rotation composed with any global
translation; `R = 1, t` gives a pure translation) and is
permutation-equivariant: permuting atoms together with their numbers and
covalent radii permutes the coordination numbers the same way. -/
theorem coordination_number_invariance {n : ℕ} (sqrtQ : ℚ → ℚ) (eps : ℚ)
    (numbers : Fin n → ℕ) (positions : Fin n → Fin 3 → ℚ)
    (cf : ℚ → ℚ → ℚ) (rcov : Fin n → ℚ) (cutoff : ℚ) :
    (∀ R t, orthoQ R → ∀ i,
      get_coordination_number sqrtQ eps numbers (applyRigid R t positions)
          cf rcov cutoff i =
        get_coordination_number sqrtQ eps numbers positions cf rcov cutoff i) ∧
    (∀ σ : Equiv.Perm (Fin n), ∀ i,
      get_coordination_number sqrtQ eps (fun a => numbers (σ a))
          (fun a => positions (σ a)) cf (fun a => rcov (σ a)) cutoff i =
        get_coordination_number sqrtQ eps numbers positions cf rcov cutoff
          (σ i)) := by
  constructor
  · intro R t hR i
    unfold get_coordination_number
    refine Finset.sum_congr rfl fun j _ => ?_
    have hd : cnDistances sqrtQ eps numbers (applyRigid R t positions) i j =
        cnDistances sqrtQ eps numbers positions i j := by
      unfold cnDistances cdistQ
      rw [d2Q_applyRigid hR]
    rw [hd]
  · intro σ i
    unfold get_coordination_number
    refine Fintype.sum_equiv σ _ _ fun j => ?_
    have hmask : cnMask (fun a => numbers (σ a)) i j ↔
        cnMask numbers (σ i) (σ j) := by
      unfold cnMask
      constructor
      · rintro ⟨h1, h2, h3⟩
        exact ⟨h1, h2, fun he => h3 (σ.injective he)⟩
      · rintro ⟨h1, h2, h3⟩
        exact ⟨h1, h2, fun he => h3 (congrArg σ he)⟩
    have hdist : cnDistances sqrtQ eps (fun a => numbers (σ a))
        (fun a => positions (σ a)) i j =
        cnDistances sqrtQ eps numbers positions (σ i) (σ j) := by
      unfold cnDistances
      by_cases hm : cnMask numbers (σ i) (σ j)
      · rw [if_pos (hmask.mpr hm), if_pos hm]
        rfl
      · rw [if_neg (fun hc => hm (hmask.mp hc)), if_neg hm]
    have hc : cdistQ sqrtQ (fun a => positions (σ a)) i j =
        cdistQ sqrtQ positions (σ i) (σ j) := rfl
    by_cases hm : cnMask numbers (σ i) (σ j)
    · by_cases hle : cnDistances sqrtQ eps numbers positions (σ i) (σ j) ≤ cutoff
      · rw [if_pos ⟨hmask.mpr hm, by rw [hdist]; exact hle⟩,
          if_pos ⟨hm, hle⟩, hdist]
      · rw [if_neg (fun hc => hle (by rw [← hdist]; exact hc.2)),
          if_neg (fun hc => hle hc.2)]
    · rw [if_neg (fun hc => hm (hmask.mp hc.1)), if_neg (fun hc => hm hc.1)]

/-- Concrete instances for the C8 witness: two hydrogen atoms, a quarter
turn around the z-axis, and a nonzero translation. -/
def rotC8 : Fin 3 → Fin 3 → ℚ := ![![0, -1, 0], ![1, 0, 0], ![0, 0, 1]]

def transC8 : Fin 3 → ℚ := ![3, -2, 7]

def posC8 : Fin 2 → Fin 3 → ℚ := ![![0, 0, 0], ![1, 2, 2]]

/-- Witness for C8: the rigid-motion invariance applied at a concrete
geometry, with the orthogonality hypothesis discharged by computation. -/
theorem coordination_number_invariance_witness :
    get_coordination_number id (1 / 1000) (fun _ => 1)
        (applyRigid rotC8 transC8 posC8) (fun d rc => d + rc) (fun _ => 1)
        5 0 =
      get_coordination_number id (1 / 1000) (fun _ => 1) posC8
        (fun d rc => d + rc) (fun _ => 1) 5 0 :=
  (coordination_number_invariance id (1 / 1000) (fun _ => 1) posC8
    (fun d rc => d + rc) (fun _ => 1) 5).1 rotC8 transC8
    (by
      intro k l
      fin_cases k <;> fin_cases l <;>
        norm_num [rotC8, Fin.sum_univ_three, Matrix.vecHead, Matrix.vecTail,
          Fin.ext_iff]) 0

/-- C2: for every numbers/positions input, each atom's coordination number
equals the sum of counting-function values over exactly the pairs of
distinct real atoms within the cutoff: the self-pair, every pair with a
padding atom (atomic number 0) and every pair beyond the cutoff
contribute exactly zero. -/
theorem coordination_number_real_pairs_only {n : ℕ} (sqrtQ : ℚ → ℚ)
    (eps : ℚ) (numbers : Fin n → ℕ) (positions : Fin n → Fin 3 → ℚ)
    (cf : ℚ → ℚ → ℚ) (rcov : Fin n → ℚ) (cutoff : ℚ) (i : Fin n) :
    get_coordination_number sqrtQ eps numbers positions cf rcov cutoff i =
      ∑ j ∈ Finset.univ.filter
          (fun j => cnMask numbers i j ∧ cdistQ sqrtQ positions i j ≤ cutoff),
        cf (cdistQ sqrtQ positions i j) (rcov i + rcov j) := by
  unfold get_coordination_number
  rw [Finset.sum_filter]
  refine Finset.sum_congr rfl fun j _ => ?_
  by_cases hm : cnMask numbers i j
  · simp [cnDistances, hm]
  · simp [cnDistances, hm]

/-! ## Hamiltonian builder (src/dxtb/xtb/h0.py, src/dxtb/utils/tensors.py) -/

/-- The index bookkeeping of `dxtb.basis.IndexHelper` as the Hamiltonian
builder consumes it: counts of atoms, shells, orbitals, unique shells and
unique species plus the spread maps between the resolutions.  Each
`spread_*` of the source becomes composition with one of these maps. -/
structure IndexHelperQ where
  nat : ℕ
  nsh : ℕ
  norb : ℕ
  nush : ℕ
  nuniq : ℕ
  shAtom : Fin nsh → Fin nat
  orbShell : Fin norb → Fin nsh
  ushOf : Fin nsh → Fin nush
  uspOf : Fin nat → Fin nuniq
  orbitals_per_shell : Fin nsh → ℕ

/-- The state of a `Hamiltonian` instance after `__init__`: the
parameter tensors gathered per unique species / unique shell (already
unit-converted, as stored on the object).  `eps` is the machine epsilon
of the floating dtype (`torch.finfo(dtype).eps`), used both for the
masked fill of `rr` and, times 10, as the symmetry tolerance. -/
structure HamiltonianQ where
  ihelp : IndexHelperQ
  numbers : Fin ihelp.nat → ℕ
  selfenergy : Fin ihelp.nush → ℚ
  kcn : Fin ihelp.nush → ℚ
  shpoly : Fin ihelp.nush → ℚ
  refocc : Fin ihelp.nush → ℚ
  valence : Fin ihelp.nush → Bool
  hscale : Fin ihelp.nush → Fin ihelp.nush → ℚ
  kpair : Fin ihelp.nuniq → Fin ihelp.nuniq → ℚ
  en : Fin ihelp.nuniq → ℚ
  rad : Fin ihelp.nuniq → ℚ
  enscale : ℚ
  eps : ℚ

/-- A shell of a real (non-padding) atom:
`real_shell = ihelp.spread_atom_to_shell(numbers) != 0`. -/
def realShellQ (h : HamiltonianQ) (s : Fin h.ihelp.nsh) : Prop :=
  h.numbers (h.ihelp.shAtom s) ≠ 0

instance realShellQDec (h : HamiltonianQ) (s : Fin h.ihelp.nsh) :
    Decidable (realShellQ h s) :=
  decidable_of_iff (h.numbers (h.ihelp.shAtom s) ≠ 0) Iff.rfl

/-- The shell-pair mask `mask_shell` of `build` (before the diagonal is
removed): both shells belong to real atoms. -/
def maskShellQ (h : HamiltonianQ) (s t : Fin h.ihelp.nsh) : Prop :=
  realShellQ h s ∧ realShellQ h t

instance maskShellQDec (h : HamiltonianQ) (s t : Fin h.ihelp.nsh) :
    Decidable (maskShellQ h s t) :=
  decidable_of_iff
    (h.numbers (h.ihelp.shAtom s) ≠ 0 ∧ h.numbers (h.ihelp.shAtom t) ≠ 0)
    Iff.rfl

/-- Electronegativity spread to shells:
`en = ihelp.spread_uspecies_to_shell(self.en)`. -/
def enShellQ (h : HamiltonianQ) (s : Fin h.ihelp.nsh) : ℚ :=
  h.en (h.ihelp.uspOf (h.ihelp.shAtom s))

/-- The coordination-number-shifted self-energy of `build` (Eq. 29):
`selfenergy - kcn * cn`, all spread to shell resolution. -/
def selfenergyShellQ (h : HamiltonianQ) (cn : Fin h.ihelp.nat → ℚ)
    (s : Fin h.ihelp.nsh) : ℚ :=
  h.selfenergy (h.ihelp.ushOf s) -
    h.kcn (h.ihelp.ushOf s) * cn (h.ihelp.shAtom s)

/-- Van-der-Waals radius spread to atoms:
`rad = ihelp.spread_uspecies_to_atom(self.rad)`. -/
def radAtomQ (h : HamiltonianQ) (a : Fin h.ihelp.nat) : ℚ :=
  h.rad (h.ihelp.uspOf a)

/-- The `rr` local of `build`: distance over summed radii on off-diagonal
real pairs, machine epsilon elsewhere. -/
def rrQ (h : HamiltonianQ) (sqrtQ : ℚ → ℚ)
    (positions : Fin h.ihelp.nat → Fin 3 → ℚ) (i j : Fin h.ihelp.nat) : ℚ :=
  if h.numbers i ≠ 0 ∧ h.numbers j ≠ 0 ∧ i ≠ j then
    cdistQ sqrtQ positions i j / (radAtomQ h i + radAtomQ h j)
  else h.eps

/-- The `rr_sh` local: `torch.sqrt(rr)` spread to shell pairs. -/
def rrShQ (h : HamiltonianQ) (sqrtQ : ℚ → ℚ)
    (positions : Fin h.ihelp.nat → Fin 3 → ℚ) (s t : Fin h.ihelp.nsh) : ℚ :=
  sqrtQ (rrQ h sqrtQ positions (h.ihelp.shAtom s) (h.ihelp.shAtom t))

/-- The distance-dependent polynomial scaling `var_pi` (Eq. 24). -/
def varPiQ (h : HamiltonianQ) (sqrtQ : ℚ → ℚ)
    (positions : Fin h.ihelp.nat → Fin 3 → ℚ) (s t : Fin h.ihelp.nsh) : ℚ :=
  (1 + h.shpoly (h.ihelp.ushOf s) * rrShQ h sqrtQ positions s t) *
    (1 + h.shpoly (h.ihelp.ushOf t) * rrShQ h sqrtQ positions s t)

/-- The electronegativity scaling `var_x` (Eq. 28):
`torch.where(mask_shell, 1 + enscale * (en_s - en_t)^2, zero)`. -/
def varXQ (h : HamiltonianQ) (s t : Fin h.ihelp.nsh) : ℚ :=
  if maskShellQ h s t then
    1 + h.enscale * (enShellQ h s - enShellQ h t) ^ 2
  else 0

/-- The combined scaling `var_k` (Eq. 23):
`torch.where(valence_s * valence_t, hscale * kpair * var_x, hscale)`. -/
def varKQ (h : HamiltonianQ) (s t : Fin h.ihelp.nsh) : ℚ :=
  if h.valence (h.ihelp.ushOf s) = true ∧ h.valence (h.ihelp.ushOf t) = true
  then
    h.hscale (h.ihelp.ushOf s) (h.ihelp.ushOf t) *
      h.kpair (h.ihelp.uspOf (h.ihelp.shAtom s))
        (h.ihelp.uspOf (h.ihelp.shAtom t)) * varXQ h s t
  else h.hscale (h.ihelp.ushOf s) (h.ihelp.ushOf t)

/-- The averaged self-energy `var_h` (Eq. 23), masked to real shells. -/
def varHQ (h : HamiltonianQ) (cn : Fin h.ihelp.nat → ℚ)
    (s t : Fin h.ihelp.nsh) : ℚ :=
  if maskShellQ h s t then
    (selfenergyShellQ h cn s + selfenergyShellQ h cn t) / 2
  else 0

/-- The shell-resolved Hamiltonian `h0`: Pi/K scaling on real
off-diagonal shell pairs only, bare `var_h` on the diagonal. -/
def h0Q (h : HamiltonianQ) (sqrtQ : ℚ → ℚ)
    (positions : Fin h.ihelp.nat → Fin 3 → ℚ) (cn : Fin h.ihelp.nat → ℚ)
    (s t : Fin h.ihelp.nsh) : ℚ :=
  if maskShellQ h s t ∧ s ≠ t then
    varPiQ h sqrtQ positions s t * varKQ h s t * varHQ h cn s t
  else varHQ h cn s t

/-- The orbital-resolved core Hamiltonian before symmetrization:
`h = ihelp.spread_shell_to_orbital(h0); hcore = h * overlap`. -/
def hcoreQ (h : HamiltonianQ) (sqrtQ : ℚ → ℚ)
    (positions : Fin h.ihelp.nat → Fin 3 → ℚ)
    (overlap : Fin h.ihelp.norb → Fin h.ihelp.norb → ℚ)
    (cn : Fin h.ihelp.nat → ℚ) (i j : Fin h.ihelp.norb) : ℚ :=
  h0Q h sqrtQ positions cn (h.ihelp.orbShell i) (h.ihelp.orbShell j) *
    overlap i j

/-- Default relative tolerance of `torch.allclose`. -/
def rtolQ : ℚ := 1 / 100000

/-- The `torch.allclose(x, x.mT, atol=atol)` test of `symmetrize`:
every entry is within `atol + rtol * |transposed entry|` of the
transposed entry. -/
def symCheckQ {n : ℕ} (atol : ℚ) (x : Fin n → Fin n → ℚ) : Prop :=
  ∀ i j, |x i j - x j i| ≤ atol + rtolQ * |x j i|

instance symCheckQDec {n : ℕ} (atol : ℚ) (x : Fin n → Fin n → ℚ) :
    Decidable (symCheckQ atol x) :=
  decidable_of_iff (∀ i j, |x i j - x j i| ≤ atol + rtolQ * |x j i|) Iff.rfl

/-- Transpose of a square matrix given as a function (`x.mT`). -/
def trQ {n : ℕ} (x : Fin n → Fin n → ℚ) : Fin n → Fin n → ℚ :=
  fun i j => x j i

/-- The symmetrized average `(x + x.mT) / 2`. -/
def symAvgQ {n : ℕ} (x : Fin n → Fin n → ℚ) : Fin n → Fin n → ℚ :=
  fun i j => (x i j + x j i) / 2

/-- Embedding of `dxtb.utils.tensors.symmetrize`: raise (model: return
`Except.error`) when the matrix is not symmetric within the tolerance,
otherwise return the exact average of the matrix and its transpose.  The
`ndim < 2` branch of the source cannot fire: the argument type is a
matrix.  `atol` is passed explicitly; the source derives it from the
dtype as `torch.finfo(x.dtype).eps * 10`. -/
def symmetrizeQ {n : ℕ} (atol : ℚ) (x : Fin n → Fin n → ℚ) :
    Except String (Fin n → Fin n → ℚ) :=
  if symCheckQ atol x then Except.ok (symAvgQ x)
  else Except.error "Matrix appears to be not symmetric."

/-- Whether an `Except` result is a success. -/
def isOkE {ε α : Type} : Except ε α → Bool
  | Except.ok _ => true
  | Except.error _ => false

/-- Embedding of `Hamiltonian.build`: assemble the core Hamiltonian and
force symmetry, failing when the asymmetry exceeds the tolerance.  The
`cn is None` default is the zero vector, so `cn` is passed explicitly. -/
def buildQ (h : HamiltonianQ) (sqrtQ : ℚ → ℚ)
    (positions : Fin h.ihelp.nat → Fin 3 → ℚ)
    (overlap : Fin h.ihelp.norb → Fin h.ihelp.norb → ℚ)
    (cn : Fin h.ihelp.nat → ℚ) :
    Except String (Fin h.ihelp.norb → Fin h.ihelp.norb → ℚ) :=
  symmetrizeQ (h.eps * 10) (hcoreQ h sqrtQ positions overlap cn)

/-- C1: on every valid geometry `build` either returns the exact average
of the assembled core Hamiltonian and its transpose — which is exactly
symmetric — or, whenever some entry of the assembled core Hamiltonian
differs from its transposed entry by more than the internal tolerance
`atol + rtol * |entry|` (with `atol = 10 * eps`), fails fatally with an
error instead of returning a result. -/
theorem build_returns_symmetrized (h : HamiltonianQ) (sqrtQ : ℚ → ℚ)
    (positions : Fin h.ihelp.nat → Fin 3 → ℚ)
    (overlap : Fin h.ihelp.norb → Fin h.ihelp.norb → ℚ)
    (cn : Fin h.ihelp.nat → ℚ) :
    (symCheckQ (h.eps * 10) (hcoreQ h sqrtQ positions overlap cn) →
      buildQ h sqrtQ positions overlap cn =
        Except.ok (symAvgQ (hcoreQ h sqrtQ positions overlap cn)) ∧
      trQ (symAvgQ (hcoreQ h sqrtQ positions overlap cn)) =
        symAvgQ (hcoreQ h sqrtQ positions overlap cn)) ∧
    (¬ symCheckQ (h.eps * 10) (hcoreQ h sqrtQ positions overlap cn) →
      buildQ h sqrtQ positions overlap cn =
        Except.error "Matrix appears to be not symmetric.") := by
  constructor
  · intro hc
    constructor
    · unfold buildQ symmetrizeQ
      rw [if_pos hc]
    · funext i j
      unfold trQ symAvgQ
      ring
  · intro hc
    unfold buildQ symmetrizeQ
    rw [if_neg hc]

/-- Index helper of the C1 witness, success case: one atom carrying one
shell with one orbital. -/
def ihW1 : IndexHelperQ :=
  { nat := 1, nsh := 1, norb := 1, nush := 1, nuniq := 1,
    shAtom := fun _ => 0, orbShell := fun _ => 0, ushOf := fun _ => 0,
    uspOf := fun _ => 0, orbitals_per_shell := fun _ => 1 }

/-- Hamiltonian instance of the C1 witness, success case. -/
def hamW1 : HamiltonianQ :=
  { ihelp := ihW1, numbers := fun _ => 1, selfenergy := fun _ => 1,
    kcn := fun _ => 0, shpoly := fun _ => 0, refocc := fun _ => 2,
    valence := fun _ => true, hscale := fun _ _ => 1, kpair := fun _ _ => 1,
    en := fun _ => 2, rad := fun _ => 1, enscale := 0, eps := 1 / 1000 }

/-- Index helper of the C1 witness, failure case: one atom, one shell,
two orbitals, so an asymmetric overlap matrix makes `hcore` asymmetric. -/
def ihW2 : IndexHelperQ :=
  { nat := 1, nsh := 1, norb := 2, nush := 1, nuniq := 1,
    shAtom := fun _ => 0, orbShell := fun _ => 0, ushOf := fun _ => 0,
    uspOf := fun _ => 0, orbitals_per_shell := fun _ => 2 }

/-- Hamiltonian instance of the C1 witness, failure case. -/
def hamW2 : HamiltonianQ :=
  { ihelp := ihW2, numbers := fun _ => 1, selfenergy := fun _ => 1,
    kcn := fun _ => 0, shpoly := fun _ => 0, refocc := fun _ => 2,
    valence := fun _ => true, hscale := fun _ _ => 1, kpair := fun _ _ => 1,
    en := fun _ => 2, rad := fun _ => 1, enscale := 0, eps := 1 / 1000 }

/-- Asymmetric overlap matrix used in the C1 failure witness. -/
def ovW2 : Fin ihW2.norb → Fin ihW2.norb → ℚ :=
  fun i j => if i = ⟨0, by decide⟩ ∧ j = ⟨1, by decide⟩ then 1 else 0

/-- Witness for C1: a concrete one-orbital system on which `build`
succeeds with an exactly symmetric result, and a concrete system with an
asymmetric overlap on which `build` fails with the symmetry error. -/
theorem build_returns_symmetrized_witness :
    (buildQ hamW1 id (fun _ _ => 0) (fun _ _ => 1) (fun _ => 0) =
        Except.ok (symAvgQ (hcoreQ hamW1 id (fun _ _ => 0) (fun _ _ => 1)
          (fun _ => 0))) ∧
      trQ (symAvgQ (hcoreQ hamW1 id (fun _ _ => 0) (fun _ _ => 1)
          (fun _ => 0))) =
        symAvgQ (hcoreQ hamW1 id (fun _ _ => 0) (fun _ _ => 1)
          (fun _ => 0))) ∧
    buildQ hamW2 id (fun _ _ => 0) ovW2 (fun _ => 0) =
      Except.error "Matrix appears to be not symmetric." := by
  constructor
  · refine (build_returns_symmetrized hamW1 id (fun _ _ => 0) (fun _ _ => 1)
      (fun _ => 0)).1 ?_
    intro i j
    rw [Fin.eq_zero i, Fin.eq_zero j, sub_self, abs_zero]
    have he : hamW1.eps = 1 / 1000 := rfl
    rw [he]
    simp only [rtolQ]
    positivity
  · refine (build_returns_symmetrized hamW2 id (fun _ _ => 0) ovW2
      (fun _ => 0)).2 ?_
    intro hc
    have h01 := hc ⟨0, by decide⟩ ⟨1, by decide⟩
    have e1 : hcoreQ hamW2 id (fun _ _ => 0) ovW2 (fun _ => 0)
        ⟨0, by decide⟩ ⟨1, by decide⟩ = (1 - 0 * 0 + (1 - 0 * 0)) / 2 * 1 :=
      rfl
    have e2 : hcoreQ hamW2 id (fun _ _ => 0) ovW2 (fun _ => 0)
        ⟨1, by decide⟩ ⟨0, by decide⟩ = (1 - 0 * 0 + (1 - 0 * 0)) / 2 * 0 :=
      rfl
    have he : hamW2.eps = 1 / 1000 := rfl
    rw [e1, e2, he] at h01
    norm_num [rtolQ] at h01

/-- Concrete instance for the C3 counterexample: one real atom carrying a
valence shell (unique shell 0) and a non-valence shell (unique shell 1). -/
def ihC3 : IndexHelperQ :=
  { nat := 1, nsh := 2, norb := 2, nush := 2, nuniq := 1,
    shAtom := fun _ => 0, orbShell := fun o => o, ushOf := fun s => s,
    uspOf := fun _ => 0, orbitals_per_shell := fun _ => 1 }

/-- Hamiltonian instance for the C3 counterexample. -/
def hamC3 : HamiltonianQ :=
  { ihelp := ihC3, numbers := fun _ => 1, selfenergy := fun _ => 1,
    kcn := fun _ => 0, shpoly := fun _ => 0, refocc := fun _ => 2,
    valence := fun u => decide (u = ⟨0, by decide⟩),
    hscale := fun _ _ => 1, kpair := fun _ _ => 1,
    en := fun _ => 2, rad := fun _ => 1, enscale := 0, eps := 1 / 1000 }

/-- First shell (valence) of the C3 counterexample instance. -/
def sC3a : Fin hamC3.ihelp.nsh := ⟨0, by decide⟩

/-- Second shell (non-valence) of the C3 counterexample instance. -/
def sC3b : Fin hamC3.ihelp.nsh := ⟨1, by decide⟩

/-- C3 counterexample: the claim says the electronegativity scaling `X`
is zero outside valence shells, but the code masks `var_x` by the
real-atom mask, not by valence: for the concrete instance the shell pair
(0, 1) has a non-valence member yet `var_x = 1 + 0 = 1`, not zero. -/
theorem en_scaling_counterexample :
    hamC3.valence (hamC3.ihelp.ushOf sC3b) = false ∧ varXQ hamC3 sC3a sC3b = 1 := by
  constructor
  · rfl
  · have hm : maskShellQ hamC3 sC3a sC3b := by
      constructor <;> decide
    unfold varXQ
    rw [if_pos hm]
    have ha : enShellQ hamC3 sC3a = 2 := rfl
    have hb : enShellQ hamC3 sC3b = 2 := rfl
    have hc : hamC3.enscale = 0 := rfl
    rw [ha, hb, hc]
    norm_num

/-- C3 (amended): `var_x` equals `1 + enscale * (EN_A - EN_B)^2` for every
shell pair of real atoms and is zero exactly for pairs involving a
padding atom's shell (not: outside valence shells); the combined scale
`var_k` equals `hscale * kpair * var_x` when both shells are valence
shells and equals `hscale` otherwise. -/
theorem en_scaling_and_offdiagonal_scale (h : HamiltonianQ)
    (s t : Fin h.ihelp.nsh) :
    (maskShellQ h s t →
      varXQ h s t = 1 + h.enscale * (enShellQ h s - enShellQ h t) ^ 2) ∧
    (¬ maskShellQ h s t → varXQ h s t = 0) ∧
    (h.valence (h.ihelp.ushOf s) = true ∧ h.valence (h.ihelp.ushOf t) = true →
      varKQ h s t = h.hscale (h.ihelp.ushOf s) (h.ihelp.ushOf t) *
        h.kpair (h.ihelp.uspOf (h.ihelp.shAtom s))
          (h.ihelp.uspOf (h.ihelp.shAtom t)) * varXQ h s t) ∧
    (¬ (h.valence (h.ihelp.ushOf s) = true ∧
        h.valence (h.ihelp.ushOf t) = true) →
      varKQ h s t = h.hscale (h.ihelp.ushOf s) (h.ihelp.ushOf t)) := by
  refine ⟨fun hm => ?_, fun hm => ?_, fun hv => ?_, fun hv => ?_⟩
  · unfold varXQ
    rw [if_pos hm]
  · unfold varXQ
    rw [if_neg hm]
  · unfold varKQ
    rw [if_pos hv]
  · unfold varKQ
    rw [if_neg hv]

/-- Witness for C3 (amended): the four branches evaluated on the concrete
instance of the counterexample, which has both valence and non-valence
shell pairs. -/
theorem en_scaling_and_offdiagonal_scale_witness :
    varXQ hamC3 sC3a sC3b =
      1 + hamC3.enscale * (enShellQ hamC3 sC3a - enShellQ hamC3 sC3b) ^ 2 ∧
    varKQ hamC3 sC3a sC3a = hamC3.hscale (hamC3.ihelp.ushOf sC3a)
      (hamC3.ihelp.ushOf sC3a) *
      hamC3.kpair (hamC3.ihelp.uspOf (hamC3.ihelp.shAtom sC3a))
        (hamC3.ihelp.uspOf (hamC3.ihelp.shAtom sC3a)) * varXQ hamC3 sC3a sC3a ∧
    varKQ hamC3 sC3a sC3b = hamC3.hscale (hamC3.ihelp.ushOf sC3a)
      (hamC3.ihelp.ushOf sC3b) := by
  refine ⟨(en_scaling_and_offdiagonal_scale hamC3 sC3a sC3b).1 ?_,
    (en_scaling_and_offdiagonal_scale hamC3 sC3a sC3a).2.2.1 ?_,
    (en_scaling_and_offdiagonal_scale hamC3 sC3a sC3b).2.2.2 ?_⟩
  · constructor <;> decide
  · constructor <;> rfl
  · intro hv
    exact absurd hv.2 (by decide)

/-- Embedding of `Hamiltonian.get_occupation`: the reference occupation
spread to orbitals, divided by the orbital count of the orbital's shell
where that count is nonzero, zero where it is zero. -/
def get_occupation (h : HamiltonianQ) (o : Fin h.ihelp.norb) : ℚ :=
  if h.ihelp.orbitals_per_shell (h.ihelp.orbShell o) ≠ 0 then
    h.refocc (h.ihelp.ushOf (h.ihelp.orbShell o)) /
      (h.ihelp.orbitals_per_shell (h.ihelp.orbShell o) : ℚ)
  else 0

/-- C10: `get_occupation` is total and guards the division: an orbital
whose shell has zero orbitals-per-shell (padding) gets occupation
exactly 0, and every other orbital gets the shell's reference occupation
divided by the number of orbitals in that shell. -/
theorem get_occupation_total (h : HamiltonianQ) (o : Fin h.ihelp.norb) :
    (h.ihelp.orbitals_per_shell (h.ihelp.orbShell o) = 0 →
      get_occupation h o = 0) ∧
    (h.ihelp.orbitals_per_shell (h.ihelp.orbShell o) ≠ 0 →
      get_occupation h o =
        h.refocc (h.ihelp.ushOf (h.ihelp.orbShell o)) /
          (h.ihelp.orbitals_per_shell (h.ihelp.orbShell o) : ℚ)) := by
  constructor
  · intro hz
    unfold get_occupation
    rw [if_neg (by simp [hz])]
  · intro hnz
    unfold get_occupation
    rw [if_pos hnz]

/-- Index helper of the C10 witness: a padding shell with zero orbitals
per shell next to a real shell with two. -/
def ihW10 : IndexHelperQ :=
  { nat := 1, nsh := 2, norb := 2, nush := 1, nuniq := 1,
    shAtom := fun _ => 0, orbShell := fun o => o, ushOf := fun _ => 0,
    uspOf := fun _ => 0,
    orbitals_per_shell := fun s => if s = ⟨0, by decide⟩ then 0 else 2 }

/-- Hamiltonian instance of the C10 witness. -/
def hamW10 : HamiltonianQ :=
  { ihelp := ihW10, numbers := fun _ => 1, selfenergy := fun _ => 1,
    kcn := fun _ => 0, shpoly := fun _ => 0, refocc := fun _ => 2,
    valence := fun _ => true, hscale := fun _ _ => 1, kpair := fun _ _ => 1,
    en := fun _ => 2, rad := fun _ => 1, enscale := 0, eps := 1 / 1000 }

/-- Orbital on the padding shell of the C10 witness. -/
def oW10a : Fin hamW10.ihelp.norb := ⟨0, by decide⟩

/-- Orbital on the real shell of the C10 witness. -/
def oW10b : Fin hamW10.ihelp.norb := ⟨1, by decide⟩

/-- Witness for C10: a concrete instance with a zero-orbital padding
shell and a two-orbital real shell. -/
theorem get_occupation_total_witness :
    get_occupation hamW10 oW10a = 0 ∧
    get_occupation hamW10 oW10b =
      hamW10.refocc (hamW10.ihelp.ushOf (hamW10.ihelp.orbShell oW10b)) /
        (hamW10.ihelp.orbitals_per_shell (hamW10.ihelp.orbShell oW10b) : ℚ) :=
  ⟨(get_occupation_total hamW10 oW10a).1 (by decide),
   (get_occupation_total hamW10 oW10b).2 (by decide)⟩

/-! ## Device and dtype conversion (`Hamiltonian.to` / `Hamiltonian.type`) -/

/-- Compute devices, with decidable equality for the identity check. -/
inductive DeviceQ
  | cpu
  | cuda
deriving DecidableEq

/-- Floating dtypes, with decidable equality for the identity check. -/
inductive DtypeQ
  | float16
  | float32
  | float64
deriving DecidableEq

/-- A `Hamiltonian` object as `to`/`type` see it: its tensors (abstracted
to the atomic numbers and an opaque parametrization payload `par`) and
its current device and dtype.  Modelled from the spec for the part not
under src/: `TensorLike` (the base class storing `device`/`dtype`) is
not in the sources, so the stored device/dtype read by the identity
check `self.__device == device` / `self.__dtype == dtype` is modelled as
a plain field, per the spec's non-mutating-cast contract. -/
structure HamObj (π : Type) where
  numbers : List ℕ
  par : π
  device : DeviceQ
  dtype : DtypeQ

/-- Reconstruction through `self.__class__(...)`, as in the non-matching
branch of `to`/`type`. -/
def mkHamObj {π : Type} (numbers : List ℕ) (par : π) (device : DeviceQ)
    (dtype : DtypeQ) : HamObj π :=
  { numbers := numbers, par := par, device := device, dtype := dtype }

/-- Embedding of `Hamiltonian.to`: return `self` unchanged when the
requested device already matches, otherwise construct a new instance on
the requested device. -/
def HamObj.to {π : Type} (h : HamObj π) (device : DeviceQ) : HamObj π :=
  if h.device = device then h
  else mkHamObj h.numbers h.par device h.dtype

/-- Embedding of `Hamiltonian.type`: return `self` unchanged when the
requested dtype already matches, otherwise construct a new instance with
the requested dtype. -/
def HamObj.type {π : Type} (h : HamObj π) (dtype : DtypeQ) : HamObj π :=
  if h.dtype = dtype then h
  else mkHamObj h.numbers h.par h.device dtype

/-- C7: `to` and `type` are pure (non-mutating by construction in the
embedding) and short-circuit to the very same value whenever the
requested device or dtype already equals the instance's current one. -/
theorem hamiltonian_to_type_short_circuit {π : Type} (h : HamObj π)
    (d : DeviceQ) (dt : DtypeQ) :
    (h.device = d → HamObj.to h d = h) ∧
    (h.dtype = dt → HamObj.type h dt = h) := by
  constructor
  · intro he
    unfold HamObj.to
    rw [if_pos he]
  · intro he
    unfold HamObj.type
    rw [if_pos he]

/-- Concrete object for the C7 witness. -/
def hamObjW : HamObj Unit :=
  { numbers := [3, 1], par := (), device := DeviceQ.cpu,
    dtype := DtypeQ.float64 }

/-- Witness for C7: the short-circuit taken on a concrete instance for a
matching device and a matching dtype. -/
theorem hamiltonian_to_type_short_circuit_witness :
    HamObj.to hamObjW DeviceQ.cpu = hamObjW ∧
    HamObj.type hamObjW DtypeQ.float64 = hamObjW :=
  ⟨(hamiltonian_to_type_short_circuit hamObjW DeviceQ.cpu
      DtypeQ.float64).1 rfl,
   (hamiltonian_to_type_short_circuit hamObjW DeviceQ.cpu
      DtypeQ.float64).2 rfl⟩

/-! ## SCF iteration core (modelled from the spec) -/

/-- Modelled from the spec: the SCF driver (spec section 4.4) is not under
src/ — only its tests are — so the loop is modelled as a pure iteration:
run at most `maxiter` steps of the per-iteration transition `step`
starting from the initial iterate; after each step test convergence with
`conv`; on convergence stop and tag the result converged, otherwise
return the last iterate tagged unconverged.  Reaching the iteration
ceiling is not an error: the function is total and always returns the
last iterate. -/
def scfRun {σ : Type} (step : σ → σ) (conv : σ → Bool) :
    ℕ → σ → σ × Bool
  | 0, s => (s, false)
  | n + 1, s =>
    let s' := step s
    if conv s' then (s', true) else scfRun step conv n s'

/-- C4: an SCF run that hits the iteration ceiling does not raise: with
`maxiter = 0` it returns the initial iterate, and whenever no iterate up
to `maxiter` satisfies the convergence test it returns exactly the
`maxiter`-fold iterate, tagged unconverged.  The model is a pure
function, so the unconverged value is reproducible: equal inputs give
equal energies. -/
theorem scf_maxiter_returns_last_iterate {σ : Type} (step : σ → σ)
    (conv : σ → Bool) (s0 : σ) (maxiter : ℕ) :
    scfRun step conv 0 s0 = (s0, false) ∧
    ((∀ k, 1 ≤ k → k ≤ maxiter → conv (step^[k] s0) = false) →
      scfRun step conv maxiter s0 = (step^[maxiter] s0, false)) := by
  constructor
  · rfl
  · induction maxiter generalizing s0 with
    | zero => intro _; rfl
    | succ n ih =>
      intro hnc
      have h1 : conv (step s0) = false := by
        have := hnc 1 le_rfl (Nat.one_le_iff_ne_zero.mpr (Nat.succ_ne_zero n))
        rwa [Function.iterate_one] at this
      show (if conv (step s0) then (step s0, true)
        else scfRun step conv n (step s0)) = _
      rw [h1]
      simp only [Bool.false_eq_true, if_false]
      have h2 : ∀ k, 1 ≤ k → k ≤ n → conv (step^[k] (step s0)) = false := by
        intro k hk1 hkn
        have := hnc (k + 1) (Nat.le_add_left 1 k)
          (Nat.succ_le_succ hkn)
        rwa [Function.iterate_succ_apply] at this
      rw [ih (step s0) h2, Function.iterate_succ_apply]

/-- Witness for C4: a concrete run capped at one iteration with a
never-satisfied convergence test returns the once-stepped iterate, and a
run capped at zero iterations returns the initial iterate. -/
theorem scf_maxiter_returns_last_iterate_witness :
    scfRun Nat.succ (fun _ => false) 0 0 = (0, false) ∧
    scfRun Nat.succ (fun _ => false) 1 0 = (Nat.succ^[1] 0, false) :=
  ⟨(scf_maxiter_returns_last_iterate Nat.succ (fun _ => false) 0 0).1,
   (scf_maxiter_returns_last_iterate Nat.succ (fun _ => false) 0 1).2
     (fun _ _ _ => rfl)⟩

/-- Modelled from the spec: one batched SCF micro-step on a per-system
iterate tagged with its convergence flag — converged systems are frozen
(culled from further updates), unconverged ones take one `step` and are
re-tested.  This is the spec's padding-masking contract: the update of
one system reads only that system's own state. -/
def stepFlag {σ : Type} (step : σ → σ) (conv : σ → Bool) :
    σ × Bool → σ × Bool
  | (s, f) => if f then (s, f) else ((step s), conv (step s))

/-- Modelled from the spec: the batched SCF loop on the flagged batch
state; stops early once every system in the batch has converged, and in
any case after `maxiter` iterations. -/
def scfRunBatchAux {b : ℕ} {σ : Type} (step : σ → σ) (conv : σ → Bool) :
    ℕ → (Fin b → σ × Bool) → (Fin b → σ × Bool)
  | 0, s => s
  | n + 1, s =>
    if ∀ i, (s i).2 = true then s
    else scfRunBatchAux step conv n (fun i => stepFlag step conv (s i))

/-- Modelled from the spec: batched SCF entry point — all systems start
unconverged from their own initial iterate. -/
def scfRunBatch {b : ℕ} {σ : Type} (step : σ → σ) (conv : σ → Bool)
    (maxiter : ℕ) (s0 : Fin b → σ) : Fin b → σ × Bool :=
  scfRunBatchAux step conv maxiter (fun i => (s0 i, false))

theorem stepFlag_frozen {σ : Type} (step : σ → σ) (conv : σ → Bool)
    (x : σ) (n : ℕ) : (stepFlag step conv)^[n] (x, true) = (x, true) := by
  induction n with
  | zero => rfl
  | succ n ih => rw [Function.iterate_succ_apply, stepFlag, if_pos rfl, ih]

theorem scfRun_eq_iterate {σ : Type} (step : σ → σ) (conv : σ → Bool)
    (n : ℕ) (s : σ) :
    scfRun step conv n s = (stepFlag step conv)^[n] (s, false) := by
  induction n generalizing s with
  | zero => rfl
  | succ n ih =>
    rw [Function.iterate_succ_apply,
      show stepFlag step conv (s, false) = (step s, conv (step s)) from by
        rw [stepFlag, if_neg Bool.false_ne_true]]
    show (if conv (step s) then (step s, true)
      else scfRun step conv n (step s)) = _
    cases hcv : conv (step s) with
    | true => rw [if_pos rfl, stepFlag_frozen]
    | false =>
      simp only [Bool.false_eq_true, if_false]
      exact ih (step s)

theorem scfRunBatchAux_component {b : ℕ} {σ : Type} (step : σ → σ)
    (conv : σ → Bool) (n : ℕ) (s : Fin b → σ × Bool) (i : Fin b) :
    scfRunBatchAux step conv n s i = (stepFlag step conv)^[n] (s i) := by
  induction n generalizing s with
  | zero => rfl
  | succ n ih =>
    show (if ∀ j, (s j).2 = true then s
      else scfRunBatchAux step conv n (fun j => stepFlag step conv (s j))) i
        = _
    by_cases hall : ∀ j, (s j).2 = true
    · rw [if_pos hall]
      have : s i = ((s i).1, true) := by
        rw [← hall i]
      rw [this, stepFlag_frozen]
    · rw [if_neg hall, ih (fun j => stepFlag step conv (s j)) ,
        Function.iterate_succ_apply]

/-- C5 (batch independence, modelled from the spec): for every system in
a batch, the batched SCF run yields exactly the state and convergence
flag that the single-system run on that system alone yields — in
particular every energy functional of the result agrees — so no other
system in the batch (and no padding) perturbs a system's result. -/
theorem scf_batch_independence {b : ℕ} {σ : Type} (step : σ → σ)
    (conv : σ → Bool) (energy : σ → ℚ) (maxiter : ℕ) (s0 : Fin b → σ)
    (i : Fin b) :
    scfRunBatch step conv maxiter s0 i = scfRun step conv maxiter (s0 i) ∧
    energy (scfRunBatch step conv maxiter s0 i).1 =
      energy (scfRun step conv maxiter (s0 i)).1 := by
  have h : scfRunBatch step conv maxiter s0 i =
      scfRun step conv maxiter (s0 i) := by
    rw [scfRunBatch, scfRunBatchAux_component, scfRun_eq_iterate]
  exact ⟨h, by rw [h]⟩

/-! ## Charge-shape validation in `Calculator.singlepoint` (modelled) -/

/-- Modelled from the spec: the total-charge shape validation performed
by `Calculator.singlepoint` before any SCF iteration (spec sections 4.5
and 7; the Calculator internals are not under src/, only the tests
exercising the error messages).  A tensor shape is its list of
dimension sizes; `batchSize = none` is a single system (1-D numbers),
`batchSize = some b` a batch of `b` systems. -/
def validateCharge (batchSize : Option ℕ) (chrgShape : List ℕ) :
    Except String Unit :=
  match batchSize with
  | none =>
    match chrgShape with
    | [] => Except.ok ()
    | [1] => Except.error "Charge tensor has only one element"
    | _ => Except.error "Charge tensor has invalid shape"
  | some b =>
    match chrgShape with
    | [] => Except.error "Charge tensor has invalid shape"
    | [m] =>
      if m = b then Except.ok ()
      else Except.error "Charge tensor has invalid shape"
    | _ => Except.error "Charge tensor has more than 1 dimension"

/-- Modelled from the spec: `singlepoint` validates the charge shape
first and only then runs the SCF computation `scf`. -/
def singlepointModel (scf : Unit → ℚ) (batchSize : Option ℕ)
    (chrgShape : List ℕ) : Except String ℚ :=
  match validateCharge batchSize chrgShape with
  | Except.error e => Except.error e
  | Except.ok _ => Except.ok (scf ())

/-- C6: the total-charge tensor is validated before any SCF iteration:
a scalar (0-D) passes for a single system, a rank-1 vector of the batch
size passes for a batch, while a one-element 1-D tensor for a single
system, a tensor of two or more dimensions for a batch, and a bare
scalar for a batch are all rejected; every validation error is returned
unchanged by `singlepoint`, independently of the SCF computation, which
is never consulted. -/
theorem singlepoint_charge_shape_validation (scf scf' : Unit → ℚ)
    (b d1 d2 : ℕ) (rest : List ℕ) (bs : Option ℕ) (shape : List ℕ)
    (e : String) :
    singlepointModel scf none [] = Except.ok (scf ()) ∧
    singlepointModel scf (some b) [b] = Except.ok (scf ()) ∧
    isOkE (singlepointModel scf none [1]) = false ∧
    isOkE (singlepointModel scf (some b) (d1 :: d2 :: rest)) = false ∧
    isOkE (singlepointModel scf (some b) []) = false ∧
    (validateCharge bs shape = Except.error e →
      singlepointModel scf bs shape = Except.error e ∧
      singlepointModel scf bs shape = singlepointModel scf' bs shape) := by
  refine ⟨rfl, ?_, rfl, rfl, rfl, ?_⟩
  · simp [singlepointModel, validateCharge]
  · intro hv
    unfold singlepointModel
    rw [hv]
    exact ⟨rfl, rfl⟩

/-- Witness for C6: the validation applied at concrete shapes, with the
error hypothesis discharged on the one-element 1-D single-system case. -/
theorem singlepoint_charge_shape_validation_witness :
    singlepointModel (fun _ => 3) none [] = Except.ok 3 ∧
    singlepointModel (fun _ => 3) none [1] =
      Except.error "Charge tensor has only one element" ∧
    singlepointModel (fun _ => 3) none [1] =
      singlepointModel (fun _ => 4) none [1] :=
  ⟨(singlepoint_charge_shape_validation (fun _ => 3) (fun _ => 4) 2 2 1 []
      none [1] "Charge tensor has only one element").1,
   (singlepoint_charge_shape_validation (fun _ => 3) (fun _ => 4) 2 2 1 []
      none [1] "Charge tensor has only one element").2.2.2.2.2 rfl⟩

/-! ## Contribution factories (repulsion from src/, ES2 modelled) -/

/-- The repulsion block of a parametrization
(`par.repulsion.effective`): the exponents and the per-element
parameters `arep`/`zeff`. -/
structure RepulsionParamQ where
  kexp : ℚ
  klight : Option ℚ
  arep : ℕ → ℚ
  zeff : ℕ → ℚ

/-- The charge/electrostatics block of a parametrization
(`par.charge`), abstracted to the fields ES2 consumes. -/
structure ChargeParamQ where
  gexp : ℚ
  hubbard : ℕ → ℚ

/-- A parametrization as the factories consume it: optional contribution
blocks.  `none` covers both an absent block and a block explicitly set
to `None` (`"repulsion" not in par or par.is_none("repulsion")`). -/
structure ParamQ where
  repulsion : Option RepulsionParamQ
  charge : Option ChargeParamQ

/-- An instance of the `Repulsion` class as constructed by the factory. -/
structure RepulsionQ where
  arep : List ℚ
  zeff : List ℚ
  kexp : ℚ
  klight : Option ℚ
  cutoff : ℚ

/-- Default real-space cutoff for repulsion
(`xtb.DEFAULT_REPULSION_CUTOFF`). -/
def DEFAULT_REPULSION_CUTOFF : ℚ := 25

/-- Embedding of `new_repulsion`
(src/dxtb/_src/components/classicals/repulsion/factory.py): when the
parametrization has no repulsion block, issue a warning (the `Bool`
component) and return `None`; otherwise gather the parameters for the
unique species and build the instance.  The analytical-gradient variant
differs only in the class constructed, so the flag is not modelled. -/
def new_repulsion (unique : List ℕ) (par : ParamQ) (cutoff : Option ℚ) :
    Option RepulsionQ × Bool :=
  match par.repulsion with
  | none => (none, true)
  | some rep =>
    (some { arep := unique.map rep.arep, zeff := unique.map rep.zeff,
            kexp := rep.kexp, klight := rep.klight,
            cutoff := cutoff.getD DEFAULT_REPULSION_CUTOFF }, false)

/-- An ES2 instance as constructed by its factory. -/
structure ES2Q where
  gexp : ℚ
  hubbard : List ℚ

/-- Modelled from the spec: `new_es2` is not under src/ (only the test
`test_es2_general.test_none` is); per the spec and that test it returns
`None` when the charge/electrostatics block is absent or `None`, and an
ES2 instance otherwise. -/
def new_es2 (numbers : List ℕ) (par : ParamQ) : Option ES2Q :=
  match par.charge with
  | none => none
  | some c => some { gexp := c.gexp, hubbard := numbers.map c.hubbard }

/-- C9: a missing optional contribution block disables the feature
instead of failing: `new_repulsion` warns and returns `None` exactly
when the repulsion block is absent, and `new_es2` returns `None` exactly
when the charge block is absent; with the blocks present both factories
return an instance and no warning.  Neither factory can raise — the
return types carry no error case. -/
theorem optional_blocks_disabled_not_fatal (unique : List ℕ) (par : ParamQ)
    (cutoff : Option ℚ) (numbers : List ℕ) :
    (par.repulsion = none → new_repulsion unique par cutoff = (none, true)) ∧
    (∀ rep, par.repulsion = some rep →
      (new_repulsion unique par cutoff).2 = false ∧
      (new_repulsion unique par cutoff).1.isSome = true) ∧
    (par.charge = none → new_es2 numbers par = none) ∧
    (∀ c, par.charge = some c → (new_es2 numbers par).isSome = true) := by
  refine ⟨fun hn => ?_, fun rep hr => ?_, fun hn => ?_, fun c hc => ?_⟩
  · unfold new_repulsion
    rw [hn]
  · unfold new_repulsion
    rw [hr]
    exact ⟨rfl, rfl⟩
  · unfold new_es2
    rw [hn]
  · unfold new_es2
    rw [hc]
    rfl

/-- Parametrization with both optional blocks missing, for the C9
witness. -/
def parEmptyW : ParamQ := { repulsion := none, charge := none }

/-- Repulsion block of the full C9 witness parametrization. -/
def repFullW : RepulsionParamQ :=
  { kexp := 3 / 2, klight := none, arep := (fun _ => 1),
    zeff := (fun _ => 1) }

/-- Charge block of the full C9 witness parametrization. -/
def chgFullW : ChargeParamQ := { gexp := 2, hubbard := (fun _ => 1) }

/-- Parametrization with both blocks present, for the C9 witness. -/
def parFullW : ParamQ :=
  { repulsion := some repFullW, charge := some chgFullW }

/-- Witness for C9: the factories evaluated on a parametrization with the
blocks absent and on one with the blocks present. -/
theorem optional_blocks_disabled_not_fatal_witness :
    new_repulsion [3, 1] parEmptyW none = (none, true) ∧
    new_es2 [3, 1] parEmptyW = none ∧
    (new_repulsion [3, 1] parFullW none).2 = false ∧
    (new_es2 [3, 1] parFullW).isSome = true :=
  ⟨(optional_blocks_disabled_not_fatal [3, 1] parEmptyW none [3, 1]).1 rfl,
   (optional_blocks_disabled_not_fatal [3, 1] parEmptyW none [3, 1]).2.2.1
     rfl,
   ((optional_blocks_disabled_not_fatal [3, 1] parFullW none [3, 1]).2.1
     repFullW rfl).1,
   (optional_blocks_disabled_not_fatal [3, 1] parFullW none [3, 1]).2.2.2
     chgFullW rfl⟩
